import Mathlib

/-!
Shallow embedding of scripts/fetch_doom_classes.py and proofs about it: the
cache manager, the cached fetcher, the category pagination loop, the
per class metadata throttle, and the header generator.
-/

namespace DoomClasses

/-- Comparison of Python strings: strict code point lexicographic order,
as the Python < operator on str values. -/
def strLtB : List Char → List Char → Bool
  | [], [] => false
  | [], _ :: _ => true
  | _ :: _, [] => false
  | a :: as, b :: bs =>
    if a.toNat < b.toNat then true
    else if b.toNat < a.toNat then false
    else strLtB as bs

theorem strLtB_irrefl : ∀ (a : List Char), strLtB a a = false := by
  intro a
  induction a with
  | nil => rfl
  | cons x xs ih => simp [strLtB, ih]

theorem strLtB_asymm : ∀ (a b : List Char), strLtB a b = true → strLtB b a = false := by
  intro a
  induction a with
  | nil =>
    intro b h
    cases b with
    | nil => simp [strLtB] at h
    | cons c cs => simp [strLtB]
  | cons x xs ih =>
    intro b h
    cases b with
    | nil => simp [strLtB] at h
    | cons y ys =>
      simp only [strLtB] at h ⊢
      by_cases h1 : x.toNat < y.toNat
      · have h2 : ¬ y.toNat < x.toNat := Nat.lt_asymm h1
        simp [h1, h2]
      · by_cases h2 : y.toNat < x.toNat
        · simp [h1, h2] at h
        · simp only [h1, h2, if_false] at h ⊢
          exact ih ys h

theorem strLtB_neg_trans :
    ∀ (a b c : List Char), strLtB a b = false → strLtB b c = false → strLtB a c = false := by
  intro a
  induction a with
  | nil =>
    intro b c hab hbc
    cases b with
    | nil => exact hbc
    | cons y ys => simp [strLtB] at hab
  | cons x xs ih =>
    intro b c hab hbc
    cases b with
    | nil =>
      cases c with
      | nil => simp [strLtB]
      | cons z zs => simp [strLtB] at hbc
    | cons y ys =>
      cases c with
      | nil => simp [strLtB]
      | cons z zs =>
        simp only [strLtB] at hab hbc ⊢
        by_cases hxy : x.toNat < y.toNat
        · simp [hxy] at hab
        · by_cases hyz : y.toNat < z.toNat
          · simp [hyz] at hbc
          · have hxz : ¬ x.toNat < z.toNat := by
              intro hlt
              exact hxy (Nat.lt_of_lt_of_le hlt (Nat.le_of_not_lt hyz))
            by_cases hzx : z.toNat < x.toNat
            · simp [hxz, hzx]
            · have hexy : x.toNat = y.toNat := by
                have h1 : x.toNat ≤ y.toNat := by
                  by_contra hc
                  have := Nat.lt_of_not_le hc
                  have h2 : z.toNat < x.toNat :=
                    Nat.lt_of_le_of_lt (Nat.le_of_not_lt hyz) this
                  exact hzx h2
                have h2 : y.toNat ≤ x.toNat := by
                  by_contra hc
                  exact hxy (Nat.lt_of_not_le hc)
                exact Nat.le_antisymm h1 h2
              have heyz : y.toNat = z.toNat := by
                have h1 : y.toNat ≤ z.toNat := by
                  by_contra hc
                  have := Nat.lt_of_not_le hc
                  have h2 : z.toNat < x.toNat := hexy ▸ this
                  exact hzx h2
                exact Nat.le_antisymm h1 (Nat.le_of_not_lt hyz)
              simp only [hxy, hzx, if_false, hexy, heyz] at hab hbc ⊢
              simp only [Nat.lt_irrefl, if_false] at hab hbc ⊢
              exact ih ys zs hab hbc

/-- The Python <= on str values, the order used by sorted and list.sort. -/
def pyLe (a b : String) : Prop := strLtB b.data a.data = false

instance : DecidableRel pyLe := fun a b => Bool.decEq (strLtB b.data a.data) false

instance : IsTotal String pyLe := by
  constructor
  intro a b
  by_cases h : strLtB b.data a.data = true
  · right
    exact Or.inl (strLtB_asymm _ _ h) |>.elim id id
  · left
    exact Bool.eq_false_iff.mpr (fun hc => h hc)

instance : IsTrans String pyLe := by
  constructor
  intro a b c hab hbc
  exact strLtB_neg_trans c.data b.data a.data hbc hab

theorem pyLe_refl (a : String) : pyLe a a := strLtB_irrefl a.data

/-- Order on dict items: Python sorted on key value pairs compares the keys
first, and the dict keys are distinct, so only the key order matters. -/
def itemLe (p q : String × List String) : Prop := pyLe p.1 q.1

instance : DecidableRel itemLe := fun p q => (inferInstance : Decidable (pyLe p.1 q.1))

instance : IsTotal (String × List String) itemLe := by
  constructor
  intro p q
  exact IsTotal.total (r := pyLe) p.1 q.1

instance : IsTrans (String × List String) itemLe := by
  constructor
  intro p q r hpq hqr
  exact IsTrans.trans (r := pyLe) p.1 q.1 r.1 hpq hqr

/-- Python str.casefold, modelled for the ASCII class and category names the
pipeline handles, where it coincides with lowercasing. -/
def casefold (s : String) : String := String.mk (s.data.map Char.toLower)

/-- One fuel driven pass of Python str.replace: replaces every non
overlapping occurrence of pat, scanning left to right.  Fuel at least the
length of the list gives the exact replace semantics. -/
def replaceFrom (pat rep : List Char) : Nat → List Char → List Char
  | 0, l => l
  | _ + 1, [] => []
  | fuel + 1, c :: cs =>
    if pat.isPrefixOf (c :: cs) then rep ++ replaceFrom pat rep fuel ((c :: cs).drop pat.length)
    else c :: replaceFrom pat rep fuel cs

/-- Python str.replace(pat, rep) for a non empty pattern. -/
def pyReplace (s pat rep : String) : String :=
  String.mk (replaceFrom pat.data rep.data s.data.length s.data)

/-- Exceptions the modelled script can raise. -/
inductive PyErr where
  | keyError (key : String)
  | valueError (value : String)
  | indexError
  | assertError (cls : String) (count : Nat)
  deriving DecidableEq

/-- True exactly for a KeyError or a ValueError. -/
def isKeyOrValueError : PyErr → Bool
  | .keyError _ => true
  | .valueError _ => true
  | _ => false

/-- Python dict lookup on an association list with distinct keys. -/
def alistGet? {β : Type} (l : List (String × β)) (k : String) : Option β :=
  (l.find? (fun p => p.1 == k)).map (·.2)

/-- Python dict assignment: overwrite the value of an existing key in place,
otherwise append the new binding. -/
def alistInsert {β : Type} (l : List (String × β)) (k : String) (v : β) :
    List (String × β) :=
  if l.any (fun p => p.1 == k) then l.map (fun p => if p.1 == k then (k, v) else p)
  else l ++ [(k, v)]

/-- The categories argument of generate_header_file: a dict from category
name to the list of its member class names. -/
abbrev Dict := List (String × List String)

def marineChainsawVzd : String := "marinechainsawvzd"

/-- Lines 494 to 499: casefold every class name and append the synthetic
class when it is not already present. -/
def buildCasefoldedClassNames (classNames : List String) : List String :=
  let cf := classNames.map casefold
  if marineChainsawVzd ∈ cf then cf else cf ++ [marineChainsawVzd]

/-- Lines 504 to 507: when the first underscore of a category name is at a
positive index, replace every occurrence of underscore followed by the next
character with that character uppercased; a name whose first underscore is
its last character makes the next character lookup raise IndexError. -/
def renameCategory (category : String) : Except PyErr String :=
  match category.data.findIdx? (fun c => c == '_') with
  | none => .ok category
  | some i =>
    if i = 0 then .ok category
    else
      match category.data.get? (i + 1) with
      | none => .error .indexError
      | some n => .ok (pyReplace category (String.mk ['_', n]) (String.mk [n.toUpper]))

/-- The loop body accumulator of lines 502 to 509, iterating the remaining
items; the first rename failure propagates, as the uncaught exception
would. -/
def buildCatsGo (acc : Dict) : Dict → Except PyErr Dict
  | [] => .ok acc
  | p :: r =>
    match renameCategory p.1 with
    | .error e => .error e
    | .ok cat => buildCatsGo (alistInsert acc cat (p.2.map casefold)) r

/-- Lines 502 to 509: rebuild the categories dict with renamed keys and
casefolded member lists, in iteration order. -/
def buildCasefoldedCategories (categories : Dict) : Except PyErr Dict :=
  buildCatsGo [] categories

/-- Insertion sort by the Python string order, the model of sorted and of
list.sort on lists of strings. -/
def sortStrings (l : List String) : List String := List.insertionSort pyLe l

/-- Lines 511 to 515: append the synthetic class to the Monster category and
re-sort it, when a Monster category exists and lacks the class. -/
def injectMarine (d : Dict) : Dict :=
  match alistGet? d "Monster" with
  | none => d
  | some l =>
    if marineChainsawVzd ∈ l then d
    else alistInsert d "Monster" (sortStrings (l ++ [marineChainsawVzd]))

/-- Python list.remove inside a dict entry: KeyError when the key is absent,
ValueError when the member is absent, otherwise remove the first occurrence. -/
def overrideRemove (d : Dict) (cat cls : String) : Except PyErr Dict :=
  match alistGet? d cat with
  | none => .error (.keyError cat)
  | some l =>
    if cls ∈ l then .ok (alistInsert d cat (l.erase cls))
    else .error (.valueError cls)

/-- Line 530: the number of category member lists that contain the class. -/
def countAppearance (d : Dict) (c : String) : Nat :=
  (d.filter (fun p => decide (c ∈ p.2))).length

/-- Lines 528 to 535: assert that every class of the class universe appears
in exactly one category; the first offender raises an AssertionError naming
the class and its count. -/
def checkPartition (cns : List String) (d : Dict) : Except PyErr Unit :=
  match cns.find? (fun c => decide (countAppearance d c ≠ 1)) with
  | some c => .error (.assertError c (countAppearance d c))
  | none => .ok ()

/-- Lines 494 to 535 before the assertion result is used: the casefolded
class universe and the casefolded, renamed, injected and overridden
categories dict. -/
def preparePartition (classNames : List String) (categories : Dict) :
    Except PyErr (List String × Dict) :=
  match buildCasefoldedCategories categories with
  | .error e => .error e
  | .ok d0 =>
    match overrideRemove (injectMarine d0) "Gore" "headcandles" with
    | .error e => .error e
    | .ok d2 =>
      match overrideRemove d2 "Player" "playerpawn" with
      | .error e => .error e
      | .ok d3 =>
        match overrideRemove d3 "Breakable" "zcorpsesitting" with
        | .error e => .error e
        | .ok d4 => .ok (buildCasefoldedClassNames classNames, d4)

/-- Concatenation of the images of f, the shape of the nested render loops. -/
def joinMap {α β : Type} (f : α → List β) : List α → List β
  | [] => []
  | a :: l => f a ++ joinMap f l

/-- sorted(casefolded_categories.items()). -/
def pySortItems (d : Dict) : Dict := List.insertionSort itemLe d

/-- Lines 541 to 550: the fixed leading text of the artifact; SCRIPT_NAME is
the constant scripts/fetch_doom_classes.py computed from the file path. -/
def headerBanner : String :=
  "#pragma once\n\n#include <string>\n#include <vector>\n#include <unordered_map>\n\n// Doom class information auto-generated from ZDoom wiki.\n// Generated by scripts/fetch_doom_classes.py\n\n"

/-- Lines 556 to 560: the emitted category name sequence, iterated in sorted
key order, with an extra Self entry emitted just before the SFX key. -/
def categoryLines (d : Dict) : List String :=
  joinMap (fun p => (if p.1 = "SFX" then ["Self"] else []) ++ [p.1]) (pySortItems d)

/-- Lines 569 to 571: the emitted class to category pairs, iterated in
sorted key order, each member list in its stored order. -/
def mappingPairs (d : Dict) : List (String × String) :=
  joinMap (fun p => p.2.map (fun c => (c, p.1))) (pySortItems d)

def renderCategoryList (d : Dict) : String :=
  (categoryLines d).foldl (fun acc c => acc ++ "    \"" ++ c ++ "\",\n") ""

def renderMapping (d : Dict) : String :=
  (mappingPairs d).foldl
    (fun acc pr => acc ++ "    \x7b\"" ++ pr.1 ++ "\", \"" ++ pr.2 ++ "\"\x7d,\n") ""

/-- Lines 553 to 573: the data section of the artifact. -/
def renderBody (d : Dict) : String :=
  "// Listing default object categories in Doom\nconst std::vector<std::string> categories = \x7b\n"
  ++ renderCategoryList d
  ++ "\x7d;\n\n// Mapping from class names to their category\nconst std::unordered_map<std::string, std::string> classToCategory = \x7b\n"
  ++ renderMapping d
  ++ "\x7d;\n"

/-- The full artifact text produced for a validated partition. -/
def renderHeader (d : Dict) : String := headerBanner ++ renderBody d

/-- generate_header_file, lines 477 to 576, up to the text handed to the
file write: Except.error models an uncaught exception, in which case no
artifact text exists. -/
def generate_header_file (classNames : List String) (categories : Dict) :
    Except PyErr String :=
  match preparePartition classNames categories with
  | .error e => .error e
  | .ok pd =>
    match checkPartition pd.1 pd.2 with
    | .error e => .error e
    | .ok _ => .ok (renderHeader pd.2)

/-- One cache file as the CacheManager can observe it when reading, among
the shapes whose read does not escape the except clause: corrupt covers
exactly the caught failures, that is a body that is not valid json, a dict
body missing its timestamp key, or a timestamp string that fromisoformat
rejects with ValueError; parsed carries a parsed timestamp and the content
field, which may itself be missing.  A valid json body that is not a dict,
or a dict whose timestamp field is not a string, is not a CacheEntry: it
raises TypeError, which the except tuple does not catch; see RawEntry. -/
inductive CacheEntry where
  | corrupt
  | parsed (ts : Int) (content : Option String)
  deriving DecidableEq

/-- CacheManager state: the store keyed by URL (the md5 digest key is a
stable injective function of the URL, so the URL itself stands for it), the
default TTL, and the four counters; times and TTLs are in seconds. -/
structure CacheState where
  store : List (String × CacheEntry)
  defaultTtl : Int
  hits : Nat
  misses : Nat
  expired : Nat
  errors : Nat
  deriving DecidableEq

/-- Line 87: ttl = ttl or self.default_ttl.  A missing ttl and the falsy
zero timedelta both fall back to the default. -/
def effTtl (d : Int) : Option Int → Int
  | none => d
  | some t => if t = 0 then d else t

/-- CacheManager.get, lines 75 to 109, on stores of readable entries: miss
when no file exists, error when the json or its timestamp is unreadable,
expired when the entry is older than the ttl; a fresh entry missing its
content field runs the hits increment of line 103 first and only then hits
the KeyError of line 104, netting one hit and one error; fresh entries with
content count a hit and return it. -/
def cacheGet (st : CacheState) (now : Int) (url : String) (ttl : Option Int) :
    Option String × CacheState :=
  let t := effTtl st.defaultTtl ttl
  match alistGet? st.store url with
  | none => (none, { st with misses := st.misses + 1 })
  | some .corrupt => (none, { st with errors := st.errors + 1 })
  | some (.parsed ts content) =>
    if now - ts > t then (none, { st with expired := st.expired + 1 })
    else
      match content with
      | none => (none, { st with hits := st.hits + 1, errors := st.errors + 1 })
      | some c => (some c, { st with hits := st.hits + 1 })

/-- CacheManager.set, lines 111 to 133, on the successful write path:
overwrite the entry for the URL with the current timestamp and content. -/
def cacheSet (st : CacheState) (now : Int) (url : String) (content : String) :
    CacheState :=
  { st with store := alistInsert st.store url (.parsed now (some content)) }

/-- One cache file with no shape restriction: typed holds the readable
shapes of CacheEntry, and typeErr is a file whose body is valid json but
not a dict, or a dict whose timestamp field is not a string, so that the
subscript of line 98 or fromisoformat raises TypeError, an exception the
except tuple of line 106 does not catch. -/
inductive RawEntry where
  | typed (e : CacheEntry)
  | typeErr
  deriving DecidableEq

/-- CacheManager state over unrestricted cache files. -/
structure RawCacheState where
  store : List (String × RawEntry)
  defaultTtl : Int
  hits : Nat
  misses : Nat
  expired : Nat
  errors : Nat
  deriving DecidableEq

/-- A store of readable entries viewed as an unrestricted store. -/
def toRaw (st : CacheState) : RawCacheState :=
  { store := st.store.map (fun p => (p.1, RawEntry.typed p.2)),
    defaultTtl := st.defaultTtl, hits := st.hits, misses := st.misses,
    expired := st.expired, errors := st.errors }

/-- CacheManager.get, lines 75 to 109, over unrestricted cache files: the
same behaviour as cacheGet on readable entries, and an uncaught TypeError,
modelled as Except.error, on a typeErr entry. -/
def cacheGetE (st : RawCacheState) (now : Int) (url : String) (ttl : Option Int) :
    Except Unit (Option String × RawCacheState) :=
  let t := effTtl st.defaultTtl ttl
  match alistGet? st.store url with
  | none => .ok (none, { st with misses := st.misses + 1 })
  | some .typeErr => .error ()
  | some (.typed .corrupt) => .ok (none, { st with errors := st.errors + 1 })
  | some (.typed (.parsed ts content)) =>
    if now - ts > t then .ok (none, { st with expired := st.expired + 1 })
    else
      match content with
      | none => .ok (none, { st with hits := st.hits + 1, errors := st.errors + 1 })
      | some c => .ok (some c, { st with hits := st.hits + 1 })

/-- Lines 190 to 203: one external retrieval; on success the content is
written to the cache before being returned, on failure the error propagates
and the store is untouched.  The third component counts retrievals. -/
def fetchFresh (net : String → Option String) (st : CacheState) (now : Int)
    (url : String) : Except Unit String × CacheState × Nat :=
  match net url with
  | some h => (.ok h, cacheSet st now url h, 1)
  | none => (.error (), st, 1)

/-- fetch_url_with_cache, lines 167 to 203: without force_refresh the cache
is consulted first and a truthy (non empty) cached string is returned with
no retrieval; a falsy result (absent entry or empty string) falls through to
one external retrieval. -/
def fetch_url_with_cache (net : String → Option String) (st : CacheState)
    (now : Int) (url : String) (forceRefresh : Bool) :
    Except Unit String × CacheState × Nat :=
  if forceRefresh then fetchFresh net st now url
  else
    let g := cacheGet st now url none
    match g.1 with
    | some c => if c = "" then fetchFresh net g.2 now url else (.ok c, g.2, 0)
    | none => fetchFresh net g.2 now url

/-- Observable events of the per class loop of fetch_class_data: the
throttle sleep, a network retrieval of a URL, and a return served purely
from the cache. -/
inductive Ev where
  | sleep
  | net (url : String)
  | cachedReturn (url : String)
  deriving DecidableEq

def classUrl (c : String) : String := "https://zdoom.org/wiki/Classes:" ++ c

/-- Lines 290 to 295 for one class: probe the cache (a stats touching get),
sleep exactly when the probe is falsy (absent or empty), then run the cached
fetch; the retrieval count of the fetch decides the emitted event. -/
def processOne (net : String → Option String) (now : Int) (force : Bool)
    (st : CacheState) (c : String) : CacheState × List Ev :=
  let url := classUrl c
  let g := cacheGet st now url none
  let pre : List Ev := if g.1.getD "" = "" then [Ev.sleep] else []
  let f := fetch_url_with_cache net g.2 now url force
  (f.2.1, pre ++ (if f.2.2 = 0 then [Ev.cachedReturn url] else [Ev.net url]))

/-- fetch_class_data, lines 288 to 295, restricted to its cache and network
behaviour: iterate the classes in order, threading the cache state and
accumulating the event trace.  Parse failures are caught per class and do
not change this trace. -/
def fetch_class_data (net : String → Option String) (now : Int) (force : Bool)
    (st : CacheState) : List String → CacheState × List Ev
  | [] => (st, [])
  | c :: rest =>
    let r := processOne net now force st c
    let next := fetch_class_data net now force r.1 rest
    (next.1, r.2 ++ next.2)

/-- Carrying the flag whether the previous event was a sleep, check that
every network event is immediately preceded by a sleep. -/
def netsPB (prevSleep : Bool) : List Ev → Bool
  | [] => true
  | Ev.sleep :: r => netsPB true r
  | Ev.net _ :: r => prevSleep && netsPB false r
  | Ev.cachedReturn _ :: r => netsPB false r

/-- Every network retrieval in the trace has a sleep immediately before it. -/
def netsPreceded (l : List Ev) : Bool := netsPB false l

/-- The prevSleep flag after processing a trace segment. -/
def afterFlag (b : Bool) : List Ev → Bool
  | [] => b
  | Ev.sleep :: r => afterFlag true r
  | Ev.net _ :: r => afterFlag false r
  | Ev.cachedReturn _ :: r => afterFlag false r

/-- One listing page of a category, abstracted to the features the
pagination loop of fetch_zdoom_categories_by_type inspects: presence of the
mw-category-generated container, presence of the mw-pages section, the
member link hrefs of that section, and presence of a next page control. -/
structure ListingPage where
  hasCategoryGenerated : Bool
  hasMwPages : Bool
  memberHrefs : List String
  hasNext : Bool
  deriving DecidableEq

/-- Python re.match of one or more word characters anchored at both ends;
the dollar anchor also matches just before one trailing newline. -/
def pyMatchIdent (s : String) : Bool :=
  let l := if s.data.getLast? = some '\n' then s.data.dropLast else s.data
  !l.isEmpty && l.all (fun c => c.isAlphanum || c == '_')

def classesHrefPat : String := "/wiki/Classes:"

/-- Lines 432 to 438: a member link contributes a class name when its href
starts with the classes path and the remainder is a plain identifier. -/
def classNameOfHref (href : String) : Option String :=
  if classesHrefPat.data.isPrefixOf href.data then
    let n := pyReplace href classesHrefPat ""
    if pyMatchIdent n then some n else none
  else none

/-- The class names one listing page contributes. -/
def extractMembers (p : ListingPage) : List String :=
  p.memberHrefs.filterMap classNameOfHref

/-- The pagination loop, lines 418 to 463, run over a finite chain of pages
where the next page control of page i leads to page i+1: a missing container
or a missing pages section ends the loop keeping what was accumulated,
otherwise the members of the page are accumulated and the loop continues
exactly when a next page control is present. -/
def paginateChain : List ListingPage → List String
  | [] => []
  | p :: rest =>
    if !p.hasCategoryGenerated then []
    else if !p.hasMwPages then []
    else extractMembers p ++ (if p.hasNext then paginateChain rest else [])

/-- How many pages of the chain the loop visits, each visit being one fetch
of that page. -/
def visitedPages : List ListingPage → Nat
  | [] => 0
  | p :: rest =>
    if !p.hasCategoryGenerated || !p.hasMwPages then 1
    else 1 + (if p.hasNext then visitedPages rest else 0)

/-- The chain shape of an N page listing: every page but the last carries a
next page control and the last carries none. -/
def chainNexts : List ListingPage → Bool
  | [] => true
  | [p] => !p.hasNext
  | p :: q :: rest => p.hasNext && chainNexts (q :: rest)

/-- The argparse default of the cache-ttl option, main lines 615 to 620,
in hours. -/
def mainCacheTtlDefaultHours : Nat := 8766

/-- The default_ttl_hours default of CacheManager.__init__, line 53. -/
def initCacheTtlDefaultHours : Nat := 24

/-- The cache state main builds, line 644, when the cache-ttl option is
left at its default: the default TTL is 8766 hours, in seconds. -/
def mkMainCacheState (store : List (String × CacheEntry)) : CacheState :=
  { store := store, defaultTtl := (mainCacheTtlDefaultHours : Int) * 3600,
    hits := 0, misses := 0, expired := 0, errors := 0 }

theorem generate_header_file_ok (cn : List String) (cats : Dict)
    (cns : List String) (d4 : Dict)
    (h : preparePartition cn cats = Except.ok (cns, d4))
    (h2 : checkPartition cns d4 = Except.ok ()) :
    generate_header_file cn cats = Except.ok (renderHeader d4) := by
  unfold generate_header_file
  rw [h]
  simp only []
  rw [h2]

theorem generate_header_file_check_err (cn : List String) (cats : Dict)
    (cns : List String) (d4 : Dict) (e : PyErr)
    (h : preparePartition cn cats = Except.ok (cns, d4))
    (h2 : checkPartition cns d4 = Except.error e) :
    generate_header_file cn cats = Except.error e := by
  unfold generate_header_file
  rw [h]
  simp only []
  rw [h2]

theorem generate_header_file_prep_err (cn : List String) (cats : Dict) (e : PyErr)
    (h : preparePartition cn cats = Except.error e) :
    generate_header_file cn cats = Except.error e := by
  unfold generate_header_file
  rw [h]

theorem checkPartition_ok_iff (cns : List String) (d : Dict) :
    checkPartition cns d = Except.ok () ↔ ∀ c ∈ cns, countAppearance d c = 1 := by
  unfold checkPartition
  cases hf : cns.find? (fun c => decide (countAppearance d c ≠ 1)) with
  | none =>
    constructor
    · intro _ c hc
      have h := List.find?_eq_none.mp hf c hc
      simpa using h
    · intro _
      rfl
  | some c =>
    constructor
    · intro h
      exact absurd h (by simp)
    · intro hall
      have hc := List.mem_of_find?_eq_some hf
      have hp := List.find?_some hf
      rw [decide_eq_true_iff] at hp
      exact absurd (hall c hc) hp

theorem checkPartition_err (cns : List String) (d : Dict) (c : String)
    (hf : cns.find? (fun c => decide (countAppearance d c ≠ 1)) = some c) :
    checkPartition cns d = Except.error (.assertError c (countAppearance d c)) := by
  unfold checkPartition
  rw [hf]

theorem find?_map_update {β : Type} (l : List (String × β)) (k : String) (v : β) :
    (l.map (fun p => if p.1 == k then (k, v) else p)).find? (fun p => p.1 == k) =
      if l.any (fun p => p.1 == k) then some (k, v) else none := by
  induction l with
  | nil => simp
  | cons p r ih =>
    by_cases hp : p.1 == k
    · simp [List.find?, hp]
    · simp only [List.map_cons, List.any_cons]
      rw [if_neg hp]
      simp only [List.find?, hp, Bool.false_or]
      exact ih

theorem alistGet?_insert_self {β : Type} (l : List (String × β)) (k : String) (v : β) :
    alistGet? (alistInsert l k v) k = some v := by
  unfold alistInsert alistGet?
  by_cases h : l.any (fun p => p.1 == k) = true
  · rw [if_pos h, find?_map_update, if_pos h]
    rfl
  · rw [if_neg h]
    have hnone : l.find? (fun p => p.1 == k) = none := by
      rw [List.find?_eq_none]
      intro p hp
      intro hc
      exact h (List.any_eq_true.mpr ⟨p, hp, hc⟩)
    rw [List.find?_append, hnone]
    simp [List.find?]

def keys {β : Type} (l : List (String × β)) : List String := l.map Prod.fst

theorem alistInsert_fst_eq {β : Type} (k : String) (v : β) (p : String × β) :
    (if p.1 == k then (k, v) else p).1 = p.1 := by
  by_cases hp : p.1 = k
  · simp [hp]
  · simp [hp]

theorem alistInsert_keys {β : Type} (l : List (String × β)) (k : String) (v : β) :
    keys (alistInsert l k v) = keys l ∨ keys (alistInsert l k v) = keys l ++ [k] := by
  unfold alistInsert keys
  by_cases h : l.any (fun p => p.1 == k) = true
  · left
    rw [if_pos h, List.map_map]
    have hf : (Prod.fst ∘ fun p : String × β => if p.1 == k then (k, v) else p) =
        (Prod.fst : String × β → String) := by
      funext p
      exact alistInsert_fst_eq k v p
    rw [hf]
  · right
    rw [if_neg h]
    simp

theorem alistInsert_keys_nodup {β : Type} (l : List (String × β)) (k : String) (v : β)
    (h : (keys l).Nodup) : (keys (alistInsert l k v)).Nodup := by
  rcases alistInsert_keys l k v with he | he
  · rw [he]
    exact h
  · rw [he]
    rw [List.nodup_append]
    refine ⟨h, List.nodup_singleton k, ?_⟩
    intro a ha hb
    simp only [List.mem_singleton] at hb
    have hm : ¬ l.any (fun p => p.1 == k) = true := by
      intro hc
      unfold alistInsert at he
      rw [if_pos hc] at he
      have hlen := congrArg List.length he
      simp [keys] at hlen
    obtain ⟨p, hp, hfst⟩ := List.mem_map.mp ha
    subst hb
    exact hm (List.any_eq_true.mpr ⟨p, hp, by simp [hfst]⟩)

theorem buildCatsGo_nodup :
    ∀ (cats acc d : Dict),
      (keys acc).Nodup → buildCatsGo acc cats = Except.ok d → (keys d).Nodup := by
  intro cats
  induction cats with
  | nil =>
    intro acc d hacc h
    cases h
    exact hacc
  | cons p r ih =>
    intro acc d hacc h
    unfold buildCatsGo at h
    cases hr : renameCategory p.1 with
    | error e =>
      rw [hr] at h
      exact Except.noConfusion h
    | ok cat =>
      rw [hr] at h
      exact ih (alistInsert acc cat (p.2.map casefold)) d
        (alistInsert_keys_nodup _ _ _ hacc) h

theorem buildCasefoldedCategories_nodup (cats d : Dict)
    (h : buildCasefoldedCategories cats = Except.ok d) : (keys d).Nodup :=
  buildCatsGo_nodup cats [] d List.nodup_nil h

theorem injectMarine_keys_nodup (d : Dict) (h : (keys d).Nodup) :
    (keys (injectMarine d)).Nodup := by
  unfold injectMarine
  split
  · exact h
  · split
    · exact h
    · exact alistInsert_keys_nodup _ _ _ h

theorem overrideRemove_keys_nodup (d d2 : Dict) (cat cls : String)
    (h : (keys d).Nodup) (hr : overrideRemove d cat cls = Except.ok d2) :
    (keys d2).Nodup := by
  unfold overrideRemove at hr
  split at hr
  · exact Except.noConfusion hr
  · split at hr
    · cases hr
      exact alistInsert_keys_nodup _ _ _ h
    · exact Except.noConfusion hr

theorem preparePartition_keys_nodup (cn : List String) (cats : Dict)
    (cns : List String) (d4 : Dict)
    (h : preparePartition cn cats = Except.ok (cns, d4)) : (keys d4).Nodup := by
  unfold preparePartition at h
  split at h
  · exact Except.noConfusion h
  · rename_i d0 h0
    split at h
    · exact Except.noConfusion h
    · rename_i d2 h2
      split at h
      · exact Except.noConfusion h
      · rename_i d3 h3
        split at h
        · exact Except.noConfusion h
        · rename_i d4x h4
          injection h with h'
          have hd : d4x = d4 := congrArg Prod.snd h'
          subst hd
          exact overrideRemove_keys_nodup d3 d4x "Breakable" "zcorpsesitting"
            (overrideRemove_keys_nodup d2 d3 "Player" "playerpawn"
              (overrideRemove_keys_nodup (injectMarine d0) d2 "Gore" "headcandles"
                (injectMarine_keys_nodup d0 (buildCasefoldedCategories_nodup cats d0 h0)) h2) h3) h4

theorem joinMap_mem {α β : Type} (f : α → List β) (l : List α) (b : β) :
    b ∈ joinMap f l ↔ ∃ a ∈ l, b ∈ f a := by
  induction l with
  | nil => simp [joinMap]
  | cons a r ih =>
    simp only [joinMap, List.mem_append, ih, List.mem_cons]
    constructor
    · rintro (h | ⟨a2, ha2, hb⟩)
      · exact ⟨a, Or.inl rfl, h⟩
      · exact ⟨a2, Or.inr ha2, hb⟩
    · rintro ⟨a2, ha2 | ha2, hb⟩
      · subst ha2
        exact Or.inl hb
      · exact Or.inr ⟨a2, ha2, hb⟩

theorem pairwise_const {α : Type} {R : Prop} (h : R) (l : List α) :
    l.Pairwise (fun _ _ => R) := by
  induction l with
  | nil => constructor
  | cons a r ih => exact List.Pairwise.cons (fun _ _ => h) ih

theorem joinMap_pairwise_snd (l : Dict) (hl : l.Pairwise itemLe) :
    List.Pairwise (fun a b : String × String => pyLe a.2 b.2)
      (joinMap (fun p => p.2.map (fun c => (c, p.1))) l) := by
  induction l with
  | nil => constructor
  | cons p r ih =>
    rw [List.pairwise_cons] at hl
    simp only [joinMap]
    rw [List.pairwise_append]
    refine ⟨?_, ih hl.2, ?_⟩
    · rw [List.pairwise_map]
      exact pairwise_const (pyLe_refl p.1) p.2
    · intro a ha b hb
      obtain ⟨c, _, hac⟩ := List.mem_map.mp ha
      obtain ⟨q, hq, hbq⟩ := (joinMap_mem _ r b).mp hb
      obtain ⟨c2, _, hbc⟩ := List.mem_map.mp hbq
      rw [← hac, ← hbc]
      exact hl.1 q hq

/-- A witness input on which the whole pipeline succeeds. -/
def w1names : List String := ["Zombieman", "Gibs"]

def w1cats : Dict :=
  [("Monster", ["Zombieman"]), ("Gore", ["HeadCandles", "Gibs"]),
   ("Player", ["PlayerPawn"]), ("Breakable", ["ZCorpseSitting"])]

def w1cns : List String := ["zombieman", "gibs", "marinechainsawvzd"]

def w1d4 : Dict :=
  [("Monster", ["marinechainsawvzd", "zombieman"]), ("Gore", ["gibs"]),
   ("Player", []), ("Breakable", [])]

/-- Claim C1: after casefolding all class names, injecting the synthetic
class marinechainsawvzd, and applying the three fixed overrides,
generate_header_file validates that every class of the class universe is
contained in exactly one category member list: if all counts equal one the
artifact text is produced, and if any class has a different count the
function stops with an assertion error naming an offending class and its
count, so no artifact text is produced. -/
theorem C1_partition_gate (cn : List String) (cats : Dict) (cns : List String) (d4 : Dict)
    (h : preparePartition cn cats = Except.ok (cns, d4)) :
    ((∀ c ∈ cns, countAppearance d4 c = 1) →
      generate_header_file cn cats = Except.ok (renderHeader d4)) ∧
    (∀ c0 ∈ cns, countAppearance d4 c0 ≠ 1 →
      ∃ c n, generate_header_file cn cats = Except.error (PyErr.assertError c n) ∧
        c ∈ cns ∧ n = countAppearance d4 c ∧ n ≠ 1) := by
  constructor
  · intro hall
    exact generate_header_file_ok cn cats cns d4 h ((checkPartition_ok_iff cns d4).mpr hall)
  · intro c0 hc0 hne
    have hex : ∃ c, cns.find? (fun c => decide (countAppearance d4 c ≠ 1)) = some c := by
      cases hf : cns.find? (fun c => decide (countAppearance d4 c ≠ 1)) with
      | none =>
        exfalso
        have hn := List.find?_eq_none.mp hf c0 hc0
        have h1 : ¬ (countAppearance d4 c0 ≠ 1) := by simpa using hn
        exact hne (not_not.mp h1)
      | some c => exact ⟨c, rfl⟩
    obtain ⟨c, hf⟩ := hex
    refine ⟨c, countAppearance d4 c,
      generate_header_file_check_err cn cats cns d4 _ h (checkPartition_err cns d4 c hf),
      List.mem_of_find?_eq_some hf, rfl, ?_⟩
    have hp := List.find?_some hf
    exact of_decide_eq_true hp

/-- Witness for C1 at a concrete input. -/
theorem C1_partition_gate_w :
    preparePartition w1names w1cats = Except.ok (w1cns, w1d4) ∧
    (∀ c ∈ w1cns, countAppearance w1d4 c = 1) ∧
    generate_header_file w1names w1cats = Except.ok (renderHeader w1d4) :=
  ⟨by rfl, by decide,
    (C1_partition_gate w1names w1cats w1cns w1d4 (by rfl)).1 (by decide)⟩

theorem generate_header_file_ok_shape (cn : List String) (cats : Dict) (out : String)
    (h : generate_header_file cn cats = Except.ok out) :
    ∃ d, out = headerBanner ++ renderBody d := by
  unfold generate_header_file at h
  split at h
  · exact Except.noConfusion h
  · rename_i pd hpd
    split at h
    · exact Except.noConfusion h
    · injection h with h2
      exact ⟨pd.2, h2.symm⟩

/-- Claim C2: the renderer is deterministic: two runs of
generate_header_file on the same class list and the same categories dict
that produce an artifact produce the same text, and that text starts with
the constant generation banner; the embedding is a pure function of its two
arguments, reflecting that the source builds fresh casefolded copies and
never writes to its inputs, and embeds no clock or timestamp. -/
theorem C2_render_deterministic (cn : List String) (cats : Dict) (out1 out2 : String)
    (h1 : generate_header_file cn cats = Except.ok out1)
    (h2 : generate_header_file cn cats = Except.ok out2) :
    out1 = out2 ∧ ∃ rest, out1 = headerBanner ++ rest := by
  constructor
  · rw [h1] at h2
    exact Except.ok.inj h2
  · obtain ⟨d, hd⟩ := generate_header_file_ok_shape cn cats out1 h1
    exact ⟨renderBody d, hd⟩

/-- Witness for C2 at a concrete input. -/
theorem C2_render_deterministic_w :
    generate_header_file w1names w1cats = Except.ok (renderHeader w1d4) ∧
    (renderHeader w1d4 = renderHeader w1d4 ∧
      ∃ rest, renderHeader w1d4 = headerBanner ++ rest) :=
  ⟨by rfl, C2_render_deterministic w1names w1cats _ _ (by rfl) (by rfl)⟩

/-- Adjacent pairs of the list ascend in the first component. -/
def ascendingByFst : List (String × String) → Bool
  | [] => true
  | [_] => true
  | a :: b :: r => decide (pyLe a.1 b.1) && ascendingByFst (b :: r)

/-- A pipeline input containing an SFX category and a class that makes the
emitted mapping not sorted by class name. -/
def c3names : List String := ["Zombieman", "Gibs", "Zzz"]

def c3cats : Dict :=
  [("Ammo", ["Zzz"]), ("Monster", ["Zombieman"]), ("Gore", ["HeadCandles", "Gibs"]),
   ("Player", ["PlayerPawn"]), ("Breakable", ["ZCorpseSitting"]), ("SFX", [])]

def c3cns : List String := ["zombieman", "gibs", "zzz", "marinechainsawvzd"]

def c3d4 : Dict :=
  [("Ammo", ["zzz"]), ("Monster", ["marinechainsawvzd", "zombieman"]), ("Gore", ["gibs"]),
   ("Player", []), ("Breakable", []), ("SFX", [])]

/-- Claim C3 counterexample: on a concrete input the pipeline succeeds, yet
the emitted category list contains both Self and SFX, so SFX is not renamed
but kept alongside an inserted Self entry, and the emitted class to category
pairs are not sorted by class name: zzz of category Ammo precedes gibs of
category Gore. -/
theorem C3_cex :
    preparePartition c3names c3cats = Except.ok (c3cns, c3d4) ∧
    generate_header_file c3names c3cats = Except.ok (renderHeader c3d4) ∧
    "Self" ∈ categoryLines c3d4 ∧ "SFX" ∈ categoryLines c3d4 ∧
    mappingPairs c3d4 =
      [("zzz", "Ammo"), ("gibs", "Gore"),
       ("marinechainsawvzd", "Monster"), ("zombieman", "Monster")] ∧
    ascendingByFst (mappingPairs c3d4) = false :=
  ⟨by rfl, by rfl, by decide, by decide, by rfl, by rfl⟩

/-- Claim C3 amended: for any input on which the pipeline succeeds, the
rendered category list iterates the categories in sorted deduplicated key
order and, when an SFX category is present, inserts an extra display entry
Self immediately before SFX while both the emitted list and the mapping keep
the key SFX; the class to category mapping is sorted by category name, and
within one category follows the stored member list order, and it covers
every class of every category of the partition. -/
theorem C3_render_order (cn : List String) (cats : Dict) (cns : List String) (d4 : Dict)
    (h : preparePartition cn cats = Except.ok (cns, d4)) :
    List.Pairwise itemLe (pySortItems d4) ∧
    (pySortItems d4).Perm d4 ∧
    ((pySortItems d4).map Prod.fst).Nodup ∧
    ("SFX" ∈ keys d4 → "Self" ∈ categoryLines d4 ∧ "SFX" ∈ categoryLines d4) ∧
    List.Pairwise (fun a b : String × String => pyLe a.2 b.2) (mappingPairs d4) ∧
    (∀ cat l, (cat, l) ∈ d4 → ∀ c ∈ l, (c, cat) ∈ mappingPairs d4) := by
  have hperm : (pySortItems d4).Perm d4 := List.perm_insertionSort itemLe d4
  have hsorted : List.Pairwise itemLe (pySortItems d4) :=
    List.sorted_insertionSort itemLe d4
  refine ⟨hsorted, hperm, ?_, ?_, ?_, ?_⟩
  · have hn : (keys d4).Nodup := preparePartition_keys_nodup cn cats cns d4 h
    exact ((hperm.map Prod.fst).nodup_iff).mpr hn
  · intro hsfx
    obtain ⟨p, hp, hfst⟩ := List.mem_map.mp hsfx
    have hp2 : p ∈ pySortItems d4 := hperm.mem_iff.mpr hp
    constructor
    · exact (joinMap_mem _ _ _).mpr ⟨p, hp2, by simp [hfst]⟩
    · exact (joinMap_mem _ _ _).mpr ⟨p, hp2, by simp [hfst]⟩
  · exact joinMap_pairwise_snd (pySortItems d4) hsorted
  · intro cat l hmem c hc
    exact (joinMap_mem _ _ _).mpr
      ⟨(cat, l), hperm.mem_iff.mpr hmem, List.mem_map.mpr ⟨c, hc, rfl⟩⟩

/-- Witness for the amended C3 at a concrete input. -/
theorem C3_render_order_w :
    preparePartition c3names c3cats = Except.ok (c3cns, c3d4) ∧
    (List.Pairwise itemLe (pySortItems c3d4) ∧
      (pySortItems c3d4).Perm c3d4 ∧
      ((pySortItems c3d4).map Prod.fst).Nodup ∧
      ("SFX" ∈ keys c3d4 → "Self" ∈ categoryLines c3d4 ∧ "SFX" ∈ categoryLines c3d4) ∧
      List.Pairwise (fun a b : String × String => pyLe a.2 b.2) (mappingPairs c3d4) ∧
      (∀ cat l, (cat, l) ∈ c3d4 → ∀ c ∈ l, (c, cat) ∈ mappingPairs c3d4)) :=
  ⟨by rfl, C3_render_order c3names c3cats c3cns c3d4 (by rfl)⟩

theorem cacheGet_none (st : CacheState) (now : Int) (url : String) (ttl : Option Int)
    (hg : alistGet? st.store url = none) :
    cacheGet st now url ttl = (none, { st with misses := st.misses + 1 }) := by
  unfold cacheGet
  rw [hg]

theorem cacheGet_corrupt (st : CacheState) (now : Int) (url : String) (ttl : Option Int)
    (hg : alistGet? st.store url = some .corrupt) :
    cacheGet st now url ttl = (none, { st with errors := st.errors + 1 }) := by
  unfold cacheGet
  rw [hg]

theorem cacheGet_valid (st : CacheState) (now : Int) (url : String) (ttl : Option Int)
    (ts : Int) (c : String) (hg : alistGet? st.store url = some (.parsed ts (some c))) :
    cacheGet st now url ttl =
      if now - ts > effTtl st.defaultTtl ttl then (none, { st with expired := st.expired + 1 })
      else (some c, { st with hits := st.hits + 1 }) := by
  unfold cacheGet
  rw [hg]

theorem cacheGet_noContent (st : CacheState) (now : Int) (url : String) (ttl : Option Int)
    (ts : Int) (hg : alistGet? st.store url = some (.parsed ts none)) :
    cacheGet st now url ttl =
      if now - ts > effTtl st.defaultTtl ttl then (none, { st with expired := st.expired + 1 })
      else (none, { st with hits := st.hits + 1, errors := st.errors + 1 }) := by
  unfold cacheGet
  rw [hg]

theorem cacheGet_store (st : CacheState) (now : Int) (url : String) (ttl : Option Int) :
    ((cacheGet st now url ttl).2).store = st.store := by
  cases hg : alistGet? st.store url with
  | none => rw [cacheGet_none st now url ttl hg]
  | some e =>
    cases e with
    | corrupt => rw [cacheGet_corrupt st now url ttl hg]
    | parsed ts content =>
      cases content with
      | none =>
        rw [cacheGet_noContent st now url ttl ts hg]
        split
        · rfl
        · rfl
      | some c =>
        rw [cacheGet_valid st now url ttl ts c hg]
        split
        · rfl
        · rfl

/-- The state with one fresh, readable cache entry for URL u. -/
def c4st : CacheState :=
  { store := [("u", CacheEntry.parsed 0 (some "x"))], defaultTtl := 10,
    hits := 0, misses := 0, expired := 0, errors := 0 }

/-- Claim C4 counterexample: with an entry five seconds old and an explicit
TTL of zero seconds, get still returns the stored content, because the falsy
zero timedelta is replaced by the default TTL of ten seconds; the claim
demands absence whenever the age exceeds the supplied TTL. -/
theorem C4_cex :
    (cacheGet c4st 5 "u" (some 0)).1 = some "x" ∧ ¬ ((5 : Int) - 0 ≤ 0) :=
  ⟨by rfl, by decide⟩

theorem alistGet?_map_typed (l : List (String × CacheEntry)) (k : String) :
    alistGet? (l.map (fun p => (p.1, RawEntry.typed p.2))) k =
      (alistGet? l k).map RawEntry.typed := by
  induction l with
  | nil => rfl
  | cons p r ih =>
    unfold alistGet? at ih ⊢
    simp only [List.map_cons, List.find?]
    by_cases hp : (p.1 == k) = true
    · rw [hp]
      rfl
    · have hp2 : (p.1 == k) = false := by simpa using hp
      rw [hp2]
      exact ih

theorem cacheGetE_typeErr (st : RawCacheState) (now : Int) (url : String)
    (ttl : Option Int) (hg : alistGet? st.store url = some RawEntry.typeErr) :
    cacheGetE st now url ttl = Except.error () := by
  unfold cacheGetE
  rw [hg]

/-- On a store of readable entries, get over unrestricted files does not
raise and agrees with the readable model, counters included. -/
theorem cacheGetE_toRaw (st : CacheState) (now : Int) (url : String) (ttl : Option Int) :
    cacheGetE (toRaw st) now url ttl =
      Except.ok ((cacheGet st now url ttl).1, toRaw (cacheGet st now url ttl).2) := by
  cases hg : alistGet? st.store url with
  | none =>
    have h1 : alistGet? (st.store.map (fun p => (p.1, RawEntry.typed p.2))) url = none := by
      rw [alistGet?_map_typed, hg]
      rfl
    simp only [cacheGetE, toRaw]
    rw [h1, cacheGet_none st now url ttl hg]
  | some e =>
    cases e with
    | corrupt =>
      have h1 : alistGet? (st.store.map (fun p => (p.1, RawEntry.typed p.2))) url =
          some (RawEntry.typed CacheEntry.corrupt) := by
        rw [alistGet?_map_typed, hg]
        rfl
      simp only [cacheGetE, toRaw]
      rw [h1, cacheGet_corrupt st now url ttl hg]
    | parsed ts content =>
      have h1 : alistGet? (st.store.map (fun p => (p.1, RawEntry.typed p.2))) url =
          some (RawEntry.typed (CacheEntry.parsed ts content)) := by
        rw [alistGet?_map_typed, hg]
        rfl
      cases content with
      | none =>
        simp only [cacheGetE, toRaw]
        rw [cacheGet_noContent st now url ttl ts hg]
        simp only [h1]
        by_cases hc : now - ts > effTtl st.defaultTtl ttl
        · rw [if_pos hc, if_pos hc]
        · rw [if_neg hc, if_neg hc]
      | some c =>
        simp only [cacheGetE, toRaw]
        rw [cacheGet_valid st now url ttl ts c hg]
        simp only [h1]
        by_cases hc : now - ts > effTtl st.defaultTtl ttl
        · rw [if_pos hc, if_pos hc]
        · rw [if_neg hc, if_neg hc]

/-- Claim C4 amended: for every key and every TTL that is either omitted or
nonzero (a zero TTL is falsy and silently replaced by the default TTL), get
returns the stored content exactly when a readable entry carrying a content
field exists whose age is at most the effective TTL; an absent entry
increments misses; a stale entry increments expired; an entry whose read
fails with one of the caught exceptions (invalid json, missing timestamp
key, timestamp string fromisoformat rejects) increments errors and is
treated as absent; a fresh entry missing only its content field first runs
the hits increment of line 103 and then the KeyError of line 104 is caught,
netting one hit and one error and returning absent, while a stale such
entry counts only expired; and get is not exception free: an entry whose
json body is not a dict or whose timestamp field is not a string raises an
uncaught TypeError, whereas on stores free of such entries get never raises
and agrees with the readable-store model. -/
theorem C4_get_spec (st : CacheState) (now : Int) (url : String) (ttl : Option Int)
    (httl : ttl = none ∨ ∃ t, ttl = some t ∧ t ≠ 0) :
    (∀ c, (cacheGet st now url ttl).1 = some c ↔
      ∃ ts, alistGet? st.store url = some (.parsed ts (some c)) ∧
        now - ts ≤ ttl.getD st.defaultTtl) ∧
    (alistGet? st.store url = none →
      cacheGet st now url ttl = (none, { st with misses := st.misses + 1 })) ∧
    (∀ ts c, alistGet? st.store url = some (.parsed ts (some c)) →
      now - ts > ttl.getD st.defaultTtl →
      cacheGet st now url ttl = (none, { st with expired := st.expired + 1 })) ∧
    (alistGet? st.store url = some .corrupt →
      cacheGet st now url ttl = (none, { st with errors := st.errors + 1 })) ∧
    (∀ ts, alistGet? st.store url = some (.parsed ts none) →
      (now - ts ≤ ttl.getD st.defaultTtl →
        cacheGet st now url ttl =
          (none, { st with hits := st.hits + 1, errors := st.errors + 1 })) ∧
      (now - ts > ttl.getD st.defaultTtl →
        cacheGet st now url ttl = (none, { st with expired := st.expired + 1 }))) ∧
    (∀ rst : RawCacheState, alistGet? rst.store url = some RawEntry.typeErr →
      cacheGetE rst now url ttl = Except.error ()) ∧
    (cacheGetE (toRaw st) now url ttl =
      Except.ok ((cacheGet st now url ttl).1, toRaw (cacheGet st now url ttl).2)) := by
  have heff : effTtl st.defaultTtl ttl = ttl.getD st.defaultTtl := by
    rcases httl with rfl | ⟨t, rfl, ht⟩
    · rfl
    · simp [effTtl, ht]
  refine ⟨?_, ?_, ?_, ?_, ?_, ?_, ?_⟩
  · intro c
    constructor
    · intro hc
      cases hg : alistGet? st.store url with
      | none => rw [cacheGet_none st now url ttl hg] at hc; simp at hc
      | some e =>
        cases e with
        | corrupt => rw [cacheGet_corrupt st now url ttl hg] at hc; simp at hc
        | parsed ts content =>
          cases content with
          | none =>
            rw [cacheGet_noContent st now url ttl ts hg] at hc
            split at hc
            · simp at hc
            · simp at hc
          | some c2 =>
            rw [cacheGet_valid st now url ttl ts c2 hg] at hc
            by_cases hlt : now - ts > effTtl st.defaultTtl ttl
            · rw [if_pos hlt] at hc
              simp at hc
            · rw [if_neg hlt] at hc
              simp only [Prod.fst] at hc
              have hcc : c2 = c := Option.some.inj hc
              subst hcc
              refine ⟨ts, rfl, ?_⟩
              rw [← heff]
              exact Int.not_lt.mp hlt
    · rintro ⟨ts, hg, hle⟩
      rw [cacheGet_valid st now url ttl ts c hg]
      rw [if_neg (by rw [heff]; exact Int.not_lt.mpr hle)]
  · intro hg
    exact cacheGet_none st now url ttl hg
  · intro ts c hg hgt
    rw [cacheGet_valid st now url ttl ts c hg]
    rw [if_pos (by rw [heff]; exact hgt)]
  · intro hg
    exact cacheGet_corrupt st now url ttl hg
  · intro ts hg
    constructor
    · intro hle
      rw [cacheGet_noContent st now url ttl ts hg]
      rw [if_neg (by rw [heff]; exact Int.not_lt.mpr hle)]
    · intro hgt
      rw [cacheGet_noContent st now url ttl ts hg]
      rw [if_pos (by rw [heff]; exact hgt)]
  · intro rst hg
    exact cacheGetE_typeErr rst now url ttl hg
  · exact cacheGetE_toRaw st now url ttl

/-- Witness for the amended C4 at a concrete input. -/
theorem C4_get_spec_w :
    alistGet? c4st.store "u" = some (CacheEntry.parsed 0 (some "x")) ∧
    ((cacheGet c4st 5 "u" none).1 = some "x" ↔
      ∃ ts, alistGet? c4st.store "u" = some (.parsed ts (some "x")) ∧
        (5 : Int) - ts ≤ (none : Option Int).getD c4st.defaultTtl) :=
  ⟨by rfl, (C4_get_spec c4st 5 "u" none (Or.inl rfl)).1 "x"⟩

/-- Claim C5: for every URL and content, set followed by get on that URL
within the effective TTL returns exactly the stored content and counts a
hit, and get after the TTL has elapsed returns absent and increments the
expired counter. -/
theorem C5_set_then_get (st : CacheState) (now now2 : Int) (url content : String)
    (ttl : Option Int) :
    (now2 - now ≤ effTtl st.defaultTtl ttl →
      cacheGet (cacheSet st now url content) now2 url ttl =
        (some content,
          { st with store := alistInsert st.store url (.parsed now (some content)),
                    hits := st.hits + 1 })) ∧
    (now2 - now > effTtl st.defaultTtl ttl →
      cacheGet (cacheSet st now url content) now2 url ttl =
        (none,
          { st with store := alistInsert st.store url (.parsed now (some content)),
                    expired := st.expired + 1 })) := by
  have hg : alistGet? (cacheSet st now url content).store url =
      some (.parsed now (some content)) := alistGet?_insert_self _ _ _
  have hdt : (cacheSet st now url content).defaultTtl = st.defaultTtl := rfl
  constructor
  · intro hle
    rw [cacheGet_valid (cacheSet st now url content) now2 url ttl now content hg, hdt]
    rw [if_neg (Int.not_lt.mpr hle)]
    rfl
  · intro hgt
    rw [cacheGet_valid (cacheSet st now url content) now2 url ttl now content hg, hdt]
    rw [if_pos hgt]
    rfl

/-- Witness for C5 at a concrete input. -/
theorem C5_set_then_get_w :
    ((1 : Int) - 0 ≤ effTtl c4st.defaultTtl none) ∧
    cacheGet (cacheSet c4st 0 "v" "data") 1 "v" none =
      (some "data",
        { c4st with store := alistInsert c4st.store "v" (.parsed 0 (some "data")),
                    hits := c4st.hits + 1 }) :=
  ⟨by decide, (C5_set_then_get c4st 0 1 "v" "data" none).1 (by decide)⟩

/-- The state with one fresh cache entry for URL u whose content is the
empty string. -/
def c6st : CacheState :=
  { store := [("u", CacheEntry.parsed 0 (some ""))], defaultTtl := 10,
    hits := 0, misses := 0, expired := 0, errors := 0 }

/-- A network oracle that always answers with the text fresh. -/
def c6net : String → Option String := fun _ => some "fresh"

/-- Claim C6 counterexample: the cache returns a hit carrying the stored
empty string, yet fetch_url_with_cache performs one external retrieval and
returns the fresh content instead of the cached one, because the empty
string is falsy in the hit test. -/
theorem C6_cex :
    (cacheGet c6st 0 "u" none).1 = some "" ∧
    (fetch_url_with_cache c6net c6st 0 "u" false).2.2 = 1 ∧
    (fetch_url_with_cache c6net c6st 0 "u" false).1 = Except.ok "fresh" :=
  ⟨by rfl, by rfl, by rfl⟩

/-- Claim C6 amended: without force refresh, a cache hit with non empty
content is returned immediately with no external retrieval; when the cache
yields nothing or the empty string, exactly one external retrieval happens
and, on success, the content is written into the cache before being
returned, while on failure the error propagates and the stored entry for
the URL is unchanged; under force refresh the cache is not consulted and
exactly one retrieval happens. -/
theorem C6_fetch_cache_first (net : String → Option String) (st : CacheState)
    (now : Int) (url : String) :
    (∀ c, (cacheGet st now url none).1 = some c → c ≠ "" →
      fetch_url_with_cache net st now url false =
        (Except.ok c, (cacheGet st now url none).2, 0)) ∧
    ((cacheGet st now url none).1.getD "" = "" → ∀ h, net url = some h →
      fetch_url_with_cache net st now url false =
        (Except.ok h, cacheSet (cacheGet st now url none).2 now url h, 1)) ∧
    ((cacheGet st now url none).1.getD "" = "" → net url = none →
      fetch_url_with_cache net st now url false =
        (Except.error (), (cacheGet st now url none).2, 1) ∧
      ((cacheGet st now url none).2).store = st.store) ∧
    (∀ h, net url = some h →
      fetch_url_with_cache net st now url true = (Except.ok h, cacheSet st now url h, 1)) ∧
    (net url = none →
      fetch_url_with_cache net st now url true = (Except.error (), st, 1)) := by
  refine ⟨?_, ?_, ?_, ?_, ?_⟩
  · intro c hc hne
    unfold fetch_url_with_cache
    simp only [Bool.false_eq_true, if_false, hc]
    rw [if_neg hne]
  · intro hfalsy h hnet
    unfold fetch_url_with_cache
    cases hg1 : (cacheGet st now url none).1 with
    | none =>
      simp only [Bool.false_eq_true, if_false, hg1]
      unfold fetchFresh
      rw [hnet]
    | some c =>
      have hc : c = "" := by
        rw [hg1] at hfalsy
        simpa using hfalsy
      simp only [Bool.false_eq_true, if_false, hg1, hc, if_pos]
      unfold fetchFresh
      rw [hnet]
  · intro hfalsy hnet
    refine ⟨?_, cacheGet_store st now url none⟩
    unfold fetch_url_with_cache
    cases hg1 : (cacheGet st now url none).1 with
    | none =>
      simp only [Bool.false_eq_true, if_false, hg1]
      unfold fetchFresh
      rw [hnet]
    | some c =>
      have hc : c = "" := by
        rw [hg1] at hfalsy
        simpa using hfalsy
      simp only [Bool.false_eq_true, if_false, hg1, hc, if_pos]
      unfold fetchFresh
      rw [hnet]
  · intro h hnet
    unfold fetch_url_with_cache
    simp only [if_pos]
    unfold fetchFresh
    rw [hnet]
  · intro hnet
    unfold fetch_url_with_cache
    simp only [if_pos]
    unfold fetchFresh
    rw [hnet]

/-- Witness for the amended C6 at a concrete input. -/
theorem C6_fetch_cache_first_w :
    (cacheGet c4st 0 "u" none).1 = some "x" ∧
    fetch_url_with_cache c6net c4st 0 "u" false =
      (Except.ok "x", (cacheGet c4st 0 "u" none).2, 0) :=
  ⟨by rfl, (C6_fetch_cache_first c6net c4st 0 "u").1 "x" (by rfl) (by decide)⟩

/-- Claim C7: in the pipeline as main runs it, the cache default TTL, used
by get whenever no explicit TTL is supplied, is 8766 hours, which is
exactly 365.25 days, about a year. -/
theorem C7_default_ttl (store : List (String × CacheEntry)) :
    (mkMainCacheState store).defaultTtl = 8766 * 3600 ∧
    effTtl (mkMainCacheState store).defaultTtl none = 8766 * 3600 ∧
    mainCacheTtlDefaultHours * 4 = (4 * 365 + 1) * 24 ∧
    (365 * 86400 : Int) ≤ 8766 * 3600 ∧ (8766 * 3600 : Int) ≤ 366 * 86400 :=
  ⟨rfl, rfl, by decide, by decide, by decide⟩

theorem visitedPages_le (qs : List ListingPage) : visitedPages qs ≤ qs.length := by
  induction qs with
  | nil => exact Nat.le_refl 0
  | cons p r ih =>
    unfold visitedPages
    split
    · simp only [List.length_cons]
      omega
    · split
      · simp only [List.length_cons]
        omega
      · simp only [List.length_cons]
        omega

theorem paginateChain_cons (p : ListingPage) (r : List ListingPage) :
    paginateChain (p :: r) =
      if !p.hasCategoryGenerated then []
      else if !p.hasMwPages then []
      else extractMembers p ++ (if p.hasNext then paginateChain r else []) := rfl

theorem visitedPages_cons (p : ListingPage) (r : List ListingPage) :
    visitedPages (p :: r) =
      if !p.hasCategoryGenerated || !p.hasMwPages then 1
      else 1 + (if p.hasNext then visitedPages r else 0) := rfl

theorem paginateChain_chain : ∀ (ps : List ListingPage),
    (∀ p ∈ ps, p.hasCategoryGenerated = true ∧ p.hasMwPages = true) →
    chainNexts ps = true →
    paginateChain ps = joinMap extractMembers ps ∧ visitedPages ps = ps.length := by
  intro ps
  induction ps with
  | nil =>
    intro _ _
    exact ⟨rfl, rfl⟩
  | cons p r ih =>
    intro hall hchain
    obtain ⟨h1, h2⟩ := hall p (List.mem_cons_self p r)
    have hallr : ∀ q ∈ r, q.hasCategoryGenerated = true ∧ q.hasMwPages = true :=
      fun q hq => hall q (List.mem_cons_of_mem p hq)
    cases r with
    | nil =>
      have hnx : p.hasNext = false := by simpa [chainNexts] using hchain
      constructor
      · rw [paginateChain_cons]
        rw [if_neg (by simp [h1]), if_neg (by simp [h2]), if_neg (by simp [hnx])]
        simp [joinMap]
      · rw [visitedPages_cons]
        rw [if_neg (by simp [h1, h2]), if_neg (by simp [hnx])]
        rfl
    | cons q rs =>
      have hpair : p.hasNext = true ∧ chainNexts (q :: rs) = true := by
        simpa [chainNexts] using hchain
      obtain ⟨ihA, ihB⟩ := ih hallr hpair.2
      constructor
      · rw [paginateChain_cons]
        rw [if_neg (by simp [h1]), if_neg (by simp [h2]), if_pos (by simp [hpair.1]), ihA]
        rfl
      · rw [visitedPages_cons]
        rw [if_neg (by simp [h1, h2]), if_pos (by simp [hpair.1]), ihB]
        simp only [List.length_cons]
        omega

/-- Claim C8: over a finite chain of N listing pages, each holding both
expected containers, every page but the last carrying a next page control
and the last carrying none, the pagination loop yields the concatenation of
the members extracted from all N pages and visits every page of the chain
exactly once; moreover on any chain, well formed or not, the loop never
visits more pages than the chain holds, and a page missing a container ends
the traversal without error. -/
theorem C8_pagination (ps : List ListingPage)
    (hall : ∀ p ∈ ps, p.hasCategoryGenerated = true ∧ p.hasMwPages = true)
    (hchain : chainNexts ps = true) :
    paginateChain ps = joinMap extractMembers ps ∧
    visitedPages ps = ps.length ∧
    (∀ qs : List ListingPage, visitedPages qs ≤ qs.length) ∧
    (∀ (p : ListingPage) (qs : List ListingPage),
      p.hasCategoryGenerated = false ∨ p.hasMwPages = false →
      paginateChain (p :: qs) = []) := by
  refine ⟨(paginateChain_chain ps hall hchain).1, (paginateChain_chain ps hall hchain).2,
    fun qs => visitedPages_le qs, ?_⟩
  intro p qs hbad
  rw [paginateChain_cons]
  rcases hbad with hb | hb
  · rw [if_pos (by simp [hb])]
  · by_cases hcg : p.hasCategoryGenerated = true
    · rw [if_neg (by simp [hcg]), if_pos (by simp [hb])]
    · rw [if_pos (by simp [Bool.eq_false_iff.mpr hcg])]

/-- A two page chain fixture. -/
def w8 : List ListingPage :=
  [⟨true, true, ["/wiki/Classes:Alpha", "/x"], true⟩,
   ⟨true, true, ["/wiki/Classes:Beta"], false⟩]

/-- Witness for C8 at the concrete two page chain. -/
theorem C8_pagination_w :
    (∀ p ∈ w8, p.hasCategoryGenerated = true ∧ p.hasMwPages = true) ∧
    chainNexts w8 = true ∧
    (paginateChain w8 = joinMap extractMembers w8 ∧
      visitedPages w8 = w8.length ∧
      (∀ qs : List ListingPage, visitedPages qs ≤ qs.length) ∧
      (∀ (p : ListingPage) (qs : List ListingPage),
        p.hasCategoryGenerated = false ∨ p.hasMwPages = false →
        paginateChain (p :: qs) = [])) :=
  ⟨by decide, by rfl, C8_pagination w8 (by decide) (by rfl)⟩

theorem cacheGet_defaultTtl (st : CacheState) (now : Int) (url : String) (ttl : Option Int) :
    ((cacheGet st now url ttl).2).defaultTtl = st.defaultTtl := by
  cases hg : alistGet? st.store url with
  | none => rw [cacheGet_none st now url ttl hg]
  | some e =>
    cases e with
    | corrupt => rw [cacheGet_corrupt st now url ttl hg]
    | parsed ts content =>
      cases content with
      | none =>
        rw [cacheGet_noContent st now url ttl ts hg]
        split
        · rfl
        · rfl
      | some c =>
        rw [cacheGet_valid st now url ttl ts c hg]
        split
        · rfl
        · rfl

theorem cacheGet_fst_congr (st st2 : CacheState) (now : Int) (url : String) (ttl : Option Int)
    (h1 : st2.store = st.store) (h2 : st2.defaultTtl = st.defaultTtl) :
    (cacheGet st2 now url ttl).1 = (cacheGet st now url ttl).1 := by
  cases hg : alistGet? st.store url with
  | none =>
    rw [cacheGet_none st now url ttl hg, cacheGet_none st2 now url ttl (by rw [h1]; exact hg)]
  | some e =>
    cases e with
    | corrupt =>
      rw [cacheGet_corrupt st now url ttl hg,
          cacheGet_corrupt st2 now url ttl (by rw [h1]; exact hg)]
    | parsed ts content =>
      cases content with
      | none =>
        rw [cacheGet_noContent st now url ttl ts hg,
            cacheGet_noContent st2 now url ttl ts (by rw [h1]; exact hg), h2]
        by_cases hc : now - ts > effTtl st.defaultTtl ttl
        · rw [if_pos hc, if_pos hc]
        · rw [if_neg hc, if_neg hc]
      | some c =>
        rw [cacheGet_valid st now url ttl ts c hg,
            cacheGet_valid st2 now url ttl ts c (by rw [h1]; exact hg), h2]
        by_cases hc : now - ts > effTtl st.defaultTtl ttl
        · rw [if_pos hc, if_pos hc]
        · rw [if_neg hc, if_neg hc]

theorem cacheGet_probe_stable (st : CacheState) (now : Int) (url : String) :
    (cacheGet ((cacheGet st now url none).2) now url none).1 =
      (cacheGet st now url none).1 :=
  cacheGet_fst_congr st ((cacheGet st now url none).2) now url none
    (cacheGet_store st now url none) (cacheGet_defaultTtl st now url none)

theorem fetchFresh_count (net : String → Option String) (st : CacheState) (now : Int)
    (url : String) : (fetchFresh net st now url).2.2 = 1 := by
  unfold fetchFresh
  cases net url <;> rfl

theorem fetch_count_force (net : String → Option String) (st : CacheState) (now : Int)
    (url : String) : (fetch_url_with_cache net st now url true).2.2 = 1 :=
  fetchFresh_count net st now url

theorem fetch_falsy_count (net : String → Option String) (st : CacheState) (now : Int)
    (url : String) (hfalsy : (cacheGet st now url none).1.getD "" = "") :
    (fetch_url_with_cache net st now url false).2.2 = 1 := by
  unfold fetch_url_with_cache
  cases hg : (cacheGet st now url none).1 with
  | none =>
    simp only [Bool.false_eq_true, if_false, hg]
    exact fetchFresh_count net _ now url
  | some v =>
    have hv : v = "" := by
      rw [hg] at hfalsy
      simpa using hfalsy
    subst hv
    simp only [Bool.false_eq_true, if_false, hg, if_true]
    exact fetchFresh_count net _ now url

/-- The event trace of one class of fetch_class_data: a falsy cache probe
(absent entry or empty content) gives a sleep followed by a network fetch;
a truthy probe gives a network fetch without sleep under force refresh, and
a pure cache return otherwise. -/
theorem processOne_events (net : String → Option String) (now : Int) (force : Bool)
    (st : CacheState) (c : String) :
    (processOne net now force st c).2 =
      if (cacheGet st now (classUrl c) none).1.getD "" = "" then
        [Ev.sleep, Ev.net (classUrl c)]
      else if force then [Ev.net (classUrl c)]
      else [Ev.cachedReturn (classUrl c)] := by
  simp only [processOne]
  by_cases hfalsy : (cacheGet st now (classUrl c) none).1.getD "" = ""
  · rw [if_pos hfalsy, if_pos hfalsy]
    have hcount : (fetch_url_with_cache net ((cacheGet st now (classUrl c) none).2) now
        (classUrl c) force).2.2 = 1 := by
      cases force with
      | true => exact fetch_count_force net _ now (classUrl c)
      | false =>
        apply fetch_falsy_count
        rw [cacheGet_probe_stable st now (classUrl c)]
        exact hfalsy
    rw [if_neg (by rw [hcount]; exact Nat.one_ne_zero)]
    rfl
  · rw [if_neg hfalsy, if_neg hfalsy]
    cases hg : (cacheGet st now (classUrl c) none).1 with
    | none =>
      exfalso
      apply hfalsy
      rw [hg]
      rfl
    | some v =>
      have hv : v ≠ "" := by
        intro hc
        apply hfalsy
        rw [hg, hc]
        rfl
      cases force with
      | true =>
        have hcount := fetch_count_force net ((cacheGet st now (classUrl c) none).2) now (classUrl c)
        rw [if_neg (by rw [hcount]; exact Nat.one_ne_zero)]
        rfl
      | false =>
        have hstable : (cacheGet ((cacheGet st now (classUrl c) none).2) now
            (classUrl c) none).1 = some v := by
          rw [cacheGet_probe_stable]
          exact hg
        have hfetch : fetch_url_with_cache net ((cacheGet st now (classUrl c) none).2) now
            (classUrl c) false =
            (Except.ok v,
              (cacheGet ((cacheGet st now (classUrl c) none).2) now (classUrl c) none).2, 0) := by
          unfold fetch_url_with_cache
          simp only [Bool.false_eq_true, if_false, hstable]
          rw [if_neg hv]
        rw [hfetch, if_pos rfl]
        rfl

theorem netsPB_append :
    ∀ (l : List Ev) (b : Bool) (m : List Ev),
      netsPB b (l ++ m) = (netsPB b l && netsPB (afterFlag b l) m) := by
  intro l
  induction l with
  | nil =>
    intro b m
    simp [netsPB, afterFlag]
  | cons e r ih =>
    intro b m
    cases e with
    | sleep => simp [netsPB, afterFlag, ih]
    | net u => simp [netsPB, afterFlag, ih, Bool.and_assoc]
    | cachedReturn u => simp [netsPB, afterFlag, ih]

theorem netsPB_mono : ∀ (l : List Ev) (b : Bool), netsPB false l = true → netsPB b l = true := by
  intro l
  induction l with
  | nil =>
    intro b _
    rfl
  | cons e r ih =>
    intro b h
    cases e with
    | sleep => exact h
    | net u => simp [netsPB] at h
    | cachedReturn u => exact h

/-- The state with one fresh non empty cache entry for the class c URL. -/
def c9st : CacheState :=
  { store := [(classUrl "c", CacheEntry.parsed 0 (some "x"))], defaultTtl := 10,
    hits := 0, misses := 0, expired := 0, errors := 0 }

/-- Claim C9 counterexample: under force refresh, a class whose URL has a
valid non empty cached entry is fetched over the network with no preceding
sleep: the throttle is skipped because the cache probe is truthy, yet the
fetch ignores the cache. -/
theorem C9_cex :
    (cacheGet c9st 0 (classUrl "c") none).1 = some "x" ∧
    (fetch_class_data c6net 0 true c9st ["c"]).2 = [Ev.net (classUrl "c")] ∧
    netsPreceded (fetch_class_data c6net 0 true c9st ["c"]).2 = false :=
  ⟨by rfl, by rfl, by rfl⟩

/-- Claim C9 amended: in the event trace of fetch_class_data, the sleep for
a class happens exactly when the cache probe of its URL is falsy, that is
when the cache holds no entry or an empty content; without force refresh
every network fetch is immediately preceded by a sleep; under force refresh
a class whose URL has a valid non empty cached entry is fetched over the
network without a preceding sleep. -/
theorem C9_throttle (net : String → Option String) (now : Int) :
    (∀ (force : Bool) (st : CacheState) (c : String),
      Ev.sleep ∈ (processOne net now force st c).2 ↔
        (cacheGet st now (classUrl c) none).1.getD "" = "") ∧
    (∀ (st : CacheState) (cs : List String),
      netsPreceded (fetch_class_data net now false st cs).2 = true) ∧
    (∀ (st : CacheState) (c : String) (v : String),
      (cacheGet st now (classUrl c) none).1 = some v → v ≠ "" →
        (processOne net now true st c).2 = [Ev.net (classUrl c)]) := by
  refine ⟨?_, ?_, ?_⟩
  · intro force st c
    rw [processOne_events]
    by_cases hf : (cacheGet st now (classUrl c) none).1.getD "" = ""
    · rw [if_pos hf]
      simp [hf]
    · rw [if_neg hf]
      constructor
      · intro hmem
        cases force with
        | true => simp at hmem
        | false => simp at hmem
      · intro hc
        exact absurd hc hf
  · intro st cs
    induction cs generalizing st with
    | nil => rfl
    | cons c rest ih =>
      show netsPB false ((processOne net now false st c).2 ++
        (fetch_class_data net now false (processOne net now false st c).1 rest).2) = true
      rw [netsPB_append]
      have hseg : ∀ b, netsPB b (processOne net now false st c).2 = true := by
        intro b
        rw [processOne_events]
        split
        · cases b <;> rfl
        · cases b <;> rfl
      have hrest := ih (processOne net now false st c).1
      rw [hseg false, netsPB_mono _ _ hrest]
      rfl
  · intro st c v hg hv
    rw [processOne_events]
    have hf : ¬ ((cacheGet st now (classUrl c) none).1.getD "" = "") := by
      rw [hg]
      simpa using hv
    rw [if_neg hf, if_pos rfl]

/-- Witness for the amended C9 at a concrete input. -/
theorem C9_throttle_w :
    (cacheGet c9st 0 (classUrl "c") none).1 = some "x" ∧
    (processOne c6net 0 true c9st "c").2 = [Ev.net (classUrl "c")] :=
  ⟨by rfl, (C9_throttle c6net 0).2.2 c9st "c" "x" (by rfl) (by decide)⟩

theorem overrideRemove_absent (d : Dict) (cat cls : String)
    (hg : alistGet? d cat = none) :
    overrideRemove d cat cls = Except.error (PyErr.keyError cat) := by
  unfold overrideRemove
  rw [hg]

theorem overrideRemove_notMem (d : Dict) (cat cls : String) (l : List String)
    (hg : alistGet? d cat = some l) (hm : cls ∉ l) :
    overrideRemove d cat cls = Except.error (PyErr.valueError cls) := by
  unfold overrideRemove
  rw [hg]
  simp only []
  rw [if_neg hm]

theorem preparePartition_err_gore (cn : List String) (cats : Dict) (d0 : Dict) (e : PyErr)
    (h0 : buildCasefoldedCategories cats = Except.ok d0)
    (hg : overrideRemove (injectMarine d0) "Gore" "headcandles" = Except.error e) :
    preparePartition cn cats = Except.error e := by
  unfold preparePartition
  rw [h0]
  simp only []
  rw [hg]

theorem preparePartition_err_player (cn : List String) (cats : Dict) (d0 d2 : Dict) (e : PyErr)
    (h0 : buildCasefoldedCategories cats = Except.ok d0)
    (h2 : overrideRemove (injectMarine d0) "Gore" "headcandles" = Except.ok d2)
    (hg : overrideRemove d2 "Player" "playerpawn" = Except.error e) :
    preparePartition cn cats = Except.error e := by
  unfold preparePartition
  rw [h0]
  simp only []
  rw [h2]
  simp only []
  rw [hg]

theorem preparePartition_err_breakable (cn : List String) (cats : Dict)
    (d0 d2 d3 : Dict) (e : PyErr)
    (h0 : buildCasefoldedCategories cats = Except.ok d0)
    (h2 : overrideRemove (injectMarine d0) "Gore" "headcandles" = Except.ok d2)
    (h3 : overrideRemove d2 "Player" "playerpawn" = Except.ok d3)
    (hg : overrideRemove d3 "Breakable" "zcorpsesitting" = Except.error e) :
    preparePartition cn cats = Except.error e := by
  unfold preparePartition
  rw [h0]
  simp only []
  rw [h2]
  simp only []
  rw [h3]
  simp only []
  rw [hg]

/-- Claim C10 counterexample: for the input categories mapping holding only
the key Gore_, the key Gore is absent, yet generate_header_file raises
IndexError from the rename step, not a KeyError or a ValueError: the first
underscore of Gore_ is its final character, so the next character lookup is
out of range before any override runs. -/
theorem C10_cex :
    generate_header_file [] [("Gore_", [])] = Except.error PyErr.indexError ∧
    isKeyOrValueError PyErr.indexError = false :=
  ⟨by rfl, by rfl⟩

/-- Claim C10 amended: when the casefold and rename pass over the input
categories succeeds, the three overrides are applied unconditionally: a
missing Gore, Player or Breakable key at its point of application raises
KeyError naming that key, and a present key whose member list lacks
headcandles, playerpawn or zcorpsesitting respectively raises ValueError,
instead of treating the override as a no-op; an input whose category name
has its first underscore as final character instead raises IndexError in
the earlier rename step. -/
theorem C10_overrides_unconditional (cn : List String) (cats : Dict) (d0 : Dict)
    (h0 : buildCasefoldedCategories cats = Except.ok d0) :
    (alistGet? (injectMarine d0) "Gore" = none →
      generate_header_file cn cats = Except.error (PyErr.keyError "Gore")) ∧
    (∀ l, alistGet? (injectMarine d0) "Gore" = some l → "headcandles" ∉ l →
      generate_header_file cn cats = Except.error (PyErr.valueError "headcandles")) ∧
    (∀ d2, overrideRemove (injectMarine d0) "Gore" "headcandles" = Except.ok d2 →
      alistGet? d2 "Player" = none →
      generate_header_file cn cats = Except.error (PyErr.keyError "Player")) ∧
    (∀ d2 l, overrideRemove (injectMarine d0) "Gore" "headcandles" = Except.ok d2 →
      alistGet? d2 "Player" = some l → "playerpawn" ∉ l →
      generate_header_file cn cats = Except.error (PyErr.valueError "playerpawn")) ∧
    (∀ d2 d3, overrideRemove (injectMarine d0) "Gore" "headcandles" = Except.ok d2 →
      overrideRemove d2 "Player" "playerpawn" = Except.ok d3 →
      alistGet? d3 "Breakable" = none →
      generate_header_file cn cats = Except.error (PyErr.keyError "Breakable")) ∧
    (∀ d2 d3 l, overrideRemove (injectMarine d0) "Gore" "headcandles" = Except.ok d2 →
      overrideRemove d2 "Player" "playerpawn" = Except.ok d3 →
      alistGet? d3 "Breakable" = some l → "zcorpsesitting" ∉ l →
      generate_header_file cn cats = Except.error (PyErr.valueError "zcorpsesitting")) := by
  refine ⟨?_, ?_, ?_, ?_, ?_, ?_⟩
  · intro hg
    exact generate_header_file_prep_err cn cats _
      (preparePartition_err_gore cn cats d0 _ h0 (overrideRemove_absent _ _ _ hg))
  · intro l hg hm
    exact generate_header_file_prep_err cn cats _
      (preparePartition_err_gore cn cats d0 _ h0 (overrideRemove_notMem _ _ _ l hg hm))
  · intro d2 h2 hg
    exact generate_header_file_prep_err cn cats _
      (preparePartition_err_player cn cats d0 d2 _ h0 h2 (overrideRemove_absent _ _ _ hg))
  · intro d2 l h2 hg hm
    exact generate_header_file_prep_err cn cats _
      (preparePartition_err_player cn cats d0 d2 _ h0 h2 (overrideRemove_notMem _ _ _ l hg hm))
  · intro d2 d3 h2 h3 hg
    exact generate_header_file_prep_err cn cats _
      (preparePartition_err_breakable cn cats d0 d2 d3 _ h0 h2 h3 (overrideRemove_absent _ _ _ hg))
  · intro d2 d3 l h2 h3 hg hm
    exact generate_header_file_prep_err cn cats _
      (preparePartition_err_breakable cn cats d0 d2 d3 _ h0 h2 h3
        (overrideRemove_notMem _ _ _ l hg hm))

/-- Witness for the amended C10 at a concrete input lacking the Gore key. -/
theorem C10_overrides_unconditional_w :
    buildCasefoldedCategories [("Monster", [])] = Except.ok [("Monster", [])] ∧
    alistGet? (injectMarine [("Monster", [])]) "Gore" = none ∧
    generate_header_file [] [("Monster", [])] = Except.error (PyErr.keyError "Gore") :=
  ⟨by rfl, by rfl,
    (C10_overrides_unconditional [] [("Monster", [])] [("Monster", [])] (by rfl)).1 (by rfl)⟩

end DoomClasses
